import Mathlib

/-!
Shallow embedding of the deterministic simulation core of the
staking-optimizer repository: the mock ledger (`mock_state.py`), the mock
staking contract (`mock_contract.py`, `mock_transaction.py`), the gas-price
optimizer (`optimizer.py`), the compound strategies (`strategy.py`) and the
reward monitor (`monitor.py`).

Conventions of the embedding:
- Python `Decimal` values are modelled as `ℚ` (exact rational arithmetic).
- Python `datetime` values are modelled as `ℚ` seconds; `datetime.now()`
  readings become explicit `now` parameters.
- Python dictionaries become functions `Addr → Option α` updated pointwise.
- Operations that can raise return `Except PyErr ...`; an `Except.error`
  result means the Python call raised before mutating state (every raise in
  the embedded operations happens before the corresponding mutations on the
  reachable states the theorems are about).
- `int(x * 0.95)` for `x = 21000` is modelled as `x * 95 / 100` in `ℕ`
  (double rounding makes the Python product land just above 19950, so the
  truncation agrees).
-/

namespace StakingSim

abbrev Addr := String

/-- Pointwise update of a dictionary modelled as a function. -/
def fupd {α : Type} (f : Addr → Option α) (a : Addr) (v : Option α) : Addr → Option α :=
  fun b => if b = a then v else f b

/-- Python exception kinds raised by the embedded code. -/
inductive PyErr where
  | valueError (msg : String)
  | keyError (msg : String)
  | indexError (msg : String)
deriving Repr, DecidableEq

/-- Decidable equality for fallible results over decidable payloads. -/
def Except.decEqExcept {ε α : Type} [DecidableEq ε] [DecidableEq α] :
    (a b : Except ε α) → Decidable (a = b)
  | .ok x, .ok y =>
      match decEq x y with
      | isTrue h => isTrue (by rw [h])
      | isFalse h => isFalse (fun hc => h (by cases hc; rfl))
  | .error x, .error y =>
      match decEq x y with
      | isTrue h => isTrue (by rw [h])
      | isFalse h => isFalse (fun hc => h (by cases hc; rfl))
  | .ok _, .error _ => isFalse (fun hc => by cases hc)
  | .error _, .ok _ => isFalse (fun hc => by cases hc)

instance {ε α : Type} [DecidableEq ε] [DecidableEq α] : DecidableEq (Except ε α) :=
  Except.decEqExcept

/-- Ledger account (`mock_state.Account`). -/
structure Account where
  balance : ℚ
  staked_amount : ℚ
  rewards : ℚ
  nonce : ℕ
  last_stake_time : Option ℚ
deriving Repr, DecidableEq

/-- Fresh account as built by `MockBlockchainState.create_account`. -/
def mkAccount (balance : ℚ) : Account :=
  { balance := balance, staked_amount := 0, rewards := 0, nonce := 0, last_stake_time := none }

inductive TxStatus where
  | pending
  | success
  | failed
deriving Repr, DecidableEq

/-- Transaction value object (`mock_transaction.MockTransaction`). -/
structure MockTx where
  from_address : Addr
  to_address : Addr
  value : ℚ
  gas_limit : ℕ
  gas_price : ℚ
  nonce : ℕ
  status : TxStatus := .pending
  gas_used : Option ℕ := none
deriving Repr, DecidableEq

/-- `MockTransaction.confirm(success)` sets the terminal status and the gas
used: 95 percent of the limit on success, the full limit on failure. -/
def MockTx.confirmWith (tx : MockTx) (success : Bool) : MockTx :=
  if success then
    { tx with status := .success, gas_used := some (tx.gas_limit * 95 / 100) }
  else
    { tx with status := .failed, gas_used := some tx.gas_limit }

/-- `MockTransaction.confirm()` with the default `success=True`. -/
def MockTx.confirm (tx : MockTx) : MockTx :=
  tx.confirmWith true

/-- `MockTransaction.get_gas_cost`: gas consumed (the limit while pending)
times the gas price, converted from wei to ETH. -/
def MockTx.getGasCost (tx : MockTx) : ℚ :=
  ((tx.gas_used.getD tx.gas_limit : ℕ) : ℚ) * tx.gas_price / 1000000000000000000

/-- Ledger state (`mock_state.MockBlockchainState`). -/
structure Blockchain where
  accounts : Addr → Option Account
  transactions : List MockTx
  gas_price : ℚ
  last_block_time : ℚ
  current_block : ℕ
  block_number : ℕ
  staking_apr : ℚ

/-- `MockBlockchainState.__init__` at wall-clock time `t0`. -/
def mkBlockchain (t0 : ℚ) : Blockchain :=
  { accounts := fun _ => none
    transactions := []
    gas_price := 20000000000
    last_block_time := t0
    current_block := 0
    block_number := 0
    staking_apr := 10 }

/-- `MockBlockchainState.create_account`. -/
def Blockchain.createAccount (bc : Blockchain) (address : Addr) (balance : ℚ) :
    Except PyErr Blockchain :=
  if (bc.accounts address).isSome then
    .error (.valueError ("Account " ++ address ++ " already exists"))
  else
    .ok { bc with accounts := fupd bc.accounts address (some (mkAccount balance)) }

/-- Total wrapper for `create_account` on a fresh address (the success
branch; the fallback is dead on every use site). -/
def Blockchain.createAccountD (bc : Blockchain) (address : Addr) (balance : ℚ) : Blockchain :=
  match bc.createAccount address balance with
  | .ok bc1 => bc1
  | .error _ => bc

/-- `MockBlockchainState.get_account`. -/
def Blockchain.getAccount (bc : Blockchain) (address : Addr) : Except PyErr Account :=
  match bc.accounts address with
  | none => .error (.keyError ("Account " ++ address ++ " does not exist"))
  | some acct => .ok acct

/-- Apply `f` to the account stored at `address`, when present. -/
def Blockchain.mapAccount (bc : Blockchain) (address : Addr) (f : Account → Account) :
    Blockchain :=
  { bc with accounts := fun b => if b = address then (bc.accounts b).map f else bc.accounts b }

/-- `MockBlockchainState.apply_transaction`: debit sender by value plus gas,
credit recipient by value only, store the transaction. There is no balance
check and the sender nonce is not touched. Both accounts must exist (the
method reads both balances). -/
def Blockchain.applyTransaction (bc : Blockchain) (tx : MockTx) : Except PyErr Blockchain :=
  if (bc.accounts tx.from_address).isSome ∧ (bc.accounts tx.to_address).isSome then
    let total_cost := tx.value + tx.getGasCost
    let bc1 := bc.mapAccount tx.from_address (fun s => { s with balance := s.balance - total_cost })
    let bc2 := bc1.mapAccount tx.to_address (fun r => { r with balance := r.balance + tx.value })
    .ok { bc2 with transactions := bc2.transactions ++ [tx] }
  else
    .error (.keyError "Account does not exist")

/-- `MockBlockchainState.mine_block`, with the final `datetime.now()`
reading passed in as `now`. Rewards accrue to ledger accounts with a
positive staked amount and a recorded last stake time. -/
def Blockchain.mineBlock (bc : Blockchain) (now : ℚ) : Blockchain :=
  let t1 := bc.last_block_time + 12
  let accrue : Account → Account := fun acct =>
    match acct.last_stake_time with
    | some t0 =>
        if 0 < acct.staked_amount then
          let reward_rate := bc.staking_apr / 365 / 86400
          { acct with rewards := acct.rewards + acct.staked_amount * reward_rate * (t1 - t0) }
        else acct
    | none => acct
  { bc with
    block_number := bc.block_number + 1
    current_block := bc.current_block + 1
    last_block_time := now
    accounts := fun a => (bc.accounts a).map accrue }

/-- `MockBlockchainState.get_gas_price`: current gas price in gwei. -/
def Blockchain.getGasPrice (bc : Blockchain) : ℚ :=
  bc.gas_price / 1000000000

/-- Staking-contract state (`mock_contract.MockStakingContract`). -/
structure Contract where
  address : Addr
  stakes : Addr → Option ℚ
  stake_block : Addr → Option ℕ
  rewards : Addr → Option ℚ
  nonces : Addr → Option ℕ
  min_stake : ℚ
  max_stake : ℚ
  gas_limit : ℕ
  apr : ℚ
  previous_apr : ℚ

/-- Contract fields as set by `MockStakingContract.__init__`. -/
def mkContract (address : Addr) : Contract :=
  { address := address
    stakes := fun _ => none
    stake_block := fun _ => none
    rewards := fun _ => none
    nonces := fun _ => none
    min_stake := 1 / 10
    max_stake := 100
    gas_limit := 21000
    apr := 1 / 20
    previous_apr := 1 / 20 }

/-- Combined ledger and contract state. -/
structure Sys where
  bc : Blockchain
  c : Contract

/-- `MockStakingContract.__init__` on a given ledger: creates the contract
account with 1000 ETH when it does not exist yet. -/
def Contract.initOn (bc : Blockchain) (address : Addr) : Sys :=
  let bc1 :=
    if (bc.accounts address).isSome then bc
    else { bc with accounts := fupd bc.accounts address (some (mkAccount 1000)) }
  { bc := bc1, c := mkContract address }

/-- `MockStakingContract._get_next_nonce`: returns the stored nonce
(defaulting to 0) and stores its successor. -/
def Contract.getNextNonce (c : Contract) (address : Addr) : ℕ × Contract :=
  let n := (c.nonces address).getD 0
  (n, { c with nonces := fupd c.nonces address (some (n + 1)) })

/-- `MockStakingContract.get_stake` / `get_staked_amount`. -/
def Sys.getStake (σ : Sys) (address : Addr) : ℚ :=
  (σ.c.stakes address).getD 0

/-- Balance of the ledger account at `address`, when it exists. -/
def Sys.balanceOf (σ : Sys) (address : Addr) : Option ℚ :=
  (σ.bc.accounts address).map (fun a => a.balance)

/-- `MockStakingContract.get_rewards`: stored base rewards plus the lazily
computed accrual `stake * apr * blocks_passed / 2628000` for stakers. -/
def Sys.getRewards (σ : Sys) (address : Addr) : ℚ :=
  let base := (σ.c.rewards address).getD 0
  match σ.c.stakes address with
  | none => base
  | some stake =>
      let sb := (σ.c.stake_block address).getD σ.bc.current_block
      let blocks_passed : ℤ := (σ.bc.current_block : ℤ) - (sb : ℤ)
      base + stake * σ.c.apr * (blocks_passed : ℚ) / 2628000

/-- The accrual component of `get_rewards`: what `get_rewards` returns once
the stored base rewards are zeroed, everything else unchanged. -/
def Sys.accrualComponent (σ : Sys) (address : Addr) : ℚ :=
  match σ.c.stakes address with
  | none => 0
  | some stake =>
      let sb := (σ.c.stake_block address).getD σ.bc.current_block
      let blocks_passed : ℤ := (σ.bc.current_block : ℤ) - (sb : ℤ)
      stake * σ.c.apr * (blocks_passed : ℚ) / 2628000

/-- `MockStakingContract.add_rewards`. -/
def Sys.addRewards (σ : Sys) (address : Addr) (amount : ℚ) : Sys :=
  { σ with c := { σ.c with
      rewards := fupd σ.c.rewards address (some ((σ.c.rewards address).getD 0 + amount)) } }

/-- `MockStakingContract.stake_tokens`: bumps the stakes map without any
ledger interaction. -/
def Sys.stakeTokens (σ : Sys) (address : Addr) (amount : ℚ) : Sys :=
  { σ with c := { σ.c with
      stakes := fupd σ.c.stakes address (some ((σ.c.stakes address).getD 0 + amount)) } }

/-- `MockStakingContract.stake`: bounds check, account lookup, transaction
confirmed and applied to the ledger, then the stakes and stake-block maps
are updated. No balance check is performed anywhere on this path. -/
def Sys.stake (σ : Sys) (address : Addr) (amount : ℚ) : Except PyErr (MockTx × Sys) :=
  if amount < σ.c.min_stake then .error (.valueError "Minimum stake is 0.1 ETH")
  else if amount > σ.c.max_stake then .error (.valueError "Maximum stake is 100.0 ETH")
  else
    match σ.bc.getAccount address with
    | .error e => .error e
    | .ok _ =>
        let p := σ.c.getNextNonce address
        let tx : MockTx :=
          { from_address := address
            to_address := σ.c.address
            value := amount
            gas_limit := σ.c.gas_limit
            gas_price := σ.bc.gas_price
            nonce := p.1 }
        let tx := tx.confirm
        match σ.bc.applyTransaction tx with
        | .error e => .error e
        | .ok bc1 =>
            let c2 := { p.2 with
              stakes := fupd p.2.stakes address (some ((p.2.stakes address).getD 0 + amount))
              stake_block := fupd p.2.stake_block address (some bc1.current_block) }
            .ok (tx, { bc := bc1, c := c2 })

/-- `MockStakingContract.unstake`: requires an existing stake covering the
amount; applies a zero-value gas-only transaction, decrements the stake
(removing the entry at zero) and credits goal amount back to the balance. -/
def Sys.unstake (σ : Sys) (address : Addr) (amount : ℚ) : Except PyErr (MockTx × Sys) :=
  match σ.c.stakes address with
  | none => .error (.valueError "No stake found")
  | some staked_amount =>
      if amount > staked_amount then .error (.valueError "Insufficient stake")
      else
        match σ.bc.getAccount address with
        | .error e => .error e
        | .ok _ =>
            let p := σ.c.getNextNonce address
            let tx : MockTx :=
              { from_address := address
                to_address := σ.c.address
                value := 0
                gas_limit := σ.c.gas_limit
                gas_price := σ.bc.gas_price
                nonce := p.1 }
            let tx := tx.confirm
            match σ.bc.applyTransaction tx with
            | .error e => .error e
            | .ok bc1 =>
                let newStake := staked_amount - amount
                let c2 := { p.2 with
                  stakes := if newStake = 0 then fupd p.2.stakes address none
                            else fupd p.2.stakes address (some newStake) }
                let bc2 := bc1.mapAccount address
                  (fun a => { a with balance := a.balance + amount })
                .ok (tx, { bc := bc2, c := c2 })

/-- `MockStakingContract.claim_rewards`: raises when `get_rewards` is zero;
otherwise moves the reward amount from the contract account to the claimer
by direct balance edits (the transaction is only confirmed, never applied,
so no gas is charged) and zeroes the stored base rewards. -/
def Sys.claimRewards (σ : Sys) (address : Addr) : Except PyErr (MockTx × Sys) :=
  let rewards := σ.getRewards address
  if rewards = 0 then .error (.valueError "No rewards available to claim")
  else
    match σ.bc.getAccount address with
    | .error e => .error e
    | .ok _ =>
        let p := σ.c.getNextNonce address
        let tx : MockTx :=
          { from_address := σ.c.address
            to_address := address
            value := rewards
            gas_limit := σ.c.gas_limit
            gas_price := σ.bc.gas_price
            nonce := p.1 }
        let tx := tx.confirm
        match σ.bc.getAccount σ.c.address with
        | .error e => .error e
        | .ok _ =>
            let bc1 := σ.bc.mapAccount σ.c.address
              (fun a => { a with balance := a.balance - rewards })
            let bc2 := bc1.mapAccount address
              (fun a => { a with balance := a.balance + rewards })
            let c2 := { p.2 with rewards := fupd p.2.rewards address (some 0) }
            .ok (tx, { bc := bc2, c := c2 })

/-- `MockStakingContract.compound`: requires a stake and positive rewards;
folds the rewards into the stakes map, zeroes the stored base rewards and
stamps the ledger account's last stake time. The stake-block entry used by
the lazy accrual in `get_rewards` is not touched. -/
def Sys.compound (σ : Sys) (address : Addr) : Except PyErr (MockTx × Sys) :=
  match σ.c.stakes address with
  | none => .error (.valueError "No stake found")
  | some staked =>
      let rewards := σ.getRewards address
      if rewards ≤ 0 then .error (.valueError "No rewards to compound")
      else
        match σ.bc.getAccount address with
        | .error e => .error e
        | .ok _ =>
            let p := σ.c.getNextNonce address
            let tx : MockTx :=
              { from_address := address
                to_address := σ.c.address
                value := rewards
                gas_limit := σ.c.gas_limit
                gas_price := σ.bc.gas_price
                nonce := p.1 }
            let c2 := { p.2 with
              stakes := fupd p.2.stakes address (some (staked + rewards))
              rewards := fupd p.2.rewards address (some 0) }
            let bc1 := σ.bc.mapAccount address
              (fun a => { a with last_stake_time := some σ.bc.last_block_time })
            .ok (tx.confirm, { bc := bc1, c := c2 })

/-- Lift `mine_block` to the combined state. -/
def Sys.mineBlock (σ : Sys) (now : ℚ) : Sys :=
  { σ with bc := σ.bc.mineBlock now }

/-- Total wrapper keeping the post-state of a successful `stake` (the
fallback is dead on every use site). -/
def Sys.stakeD (σ : Sys) (address : Addr) (amount : ℚ) : Sys :=
  match σ.stake address amount with
  | .ok r => r.2
  | .error _ => σ

/-! Gas-price optimizer (`optimizer.py`). -/

/-- A sample of the optimizer's price history: timestamp and gas price. -/
abbrev Sample := ℚ × ℚ

/-- `optimizer.GasWindow`. -/
structure GasWindow where
  start_time : ℚ
  end_time : ℚ
  avg_gas_price : ℚ
  min_gas_price : ℚ
  max_gas_price : ℚ
deriving Repr, DecidableEq

/-- Python `min` over a nonempty list given as head and tail. -/
def listMin (x : ℚ) (xs : List ℚ) : ℚ :=
  xs.foldl min x

/-- Python `max` over a nonempty list given as head and tail. -/
def listMax (x : ℚ) (xs : List ℚ) : ℚ :=
  xs.foldl max x

/-- The `GasWindow` built from one nonempty run of samples: first sample's
time, last sample's time, and average, minimum and maximum of the prices. -/
def runWindow (s : Sample) (rest : List Sample) : GasWindow :=
  let run := s :: rest
  let prices := run.map Prod.snd
  { start_time := s.1
    end_time := (run.getLast (List.cons_ne_nil s rest)).1
    avg_gas_price := prices.sum / (prices.length : ℚ)
    min_gas_price := listMin s.2 (rest.map Prod.snd)
    max_gas_price := listMax s.2 (rest.map Prod.snd) }

/-- The body shared by the two window-closing sites of
`GasOptimizer._find_optimal_window`: keep a run only when its time span in
minutes is at least `min_window_size`. -/
def qualifyRun (minW : ℚ) : List Sample → Option GasWindow
  | [] => none
  | s :: rest =>
      let w := runWindow s rest
      if minW ≤ (w.end_time - w.start_time) / 60 then some w else none

/-- The scanning loop of `_find_optimal_window`: `currentRun` plays the role
of `price_history[start_idx:i]` (the open run, `[]` when `start_idx` is
`None`); a sample above the average closes the open run, and the trailing
open run is closed after the loop. -/
def collectWindows (minW avg : ℚ) : List Sample → List Sample → List GasWindow
  | currentRun, [] => (qualifyRun minW currentRun).toList
  | currentRun, s :: rest =>
      if s.2 ≤ avg then collectWindows minW avg (currentRun ++ [s]) rest
      else (qualifyRun minW currentRun).toList ++ collectWindows minW avg [] rest

/-- Python `min(windows, key=...)`: the first element attaining the minimal
key, `none` on the empty list. -/
def pyMinBy (key : GasWindow → ℚ) : List GasWindow → Option GasWindow
  | [] => none
  | w :: ws => some (ws.foldl (fun m y => if key y < key m then y else m) w)

/-- `GasOptimizer._find_optimal_window` on a given price history. -/
def findOptimalWindow (minW : ℚ) (hist : List Sample) : Option GasWindow :=
  if hist.length < 2 then none
  else
    let prices := hist.map Prod.snd
    let avg := prices.sum / (prices.length : ℚ)
    pyMinBy (fun w => w.avg_gas_price) (collectWindows minW avg [] hist)

/-- Modelled from the spec: the maximal contiguous runs of samples whose
price is at or below the average, in order of occurrence. A run starts at a
sample at or below the average and extends as far as such samples reach. -/
def specRuns (avg : ℚ) : List Sample → List (List Sample)
  | [] => []
  | s :: rest =>
      if s.2 ≤ avg then
        (s :: rest.takeWhile (fun t => t.2 ≤ avg)) ::
          specRuns avg (rest.dropWhile (fun t => t.2 ≤ avg))
      else specRuns avg rest
termination_by l => l.length
decreasing_by
  all_goals simp
  exact Nat.lt_succ_of_le (List.dropWhile_sublist _).length_le

/-- Modelled from the spec: among a list of windows, the one with the lowest
average price, ties broken by the earliest start time. -/
def specSelect : List GasWindow → Option GasWindow
  | [] => none
  | w :: ws =>
      some (ws.foldl
        (fun m y =>
          if y.avg_gas_price < m.avg_gas_price ∨
             (y.avg_gas_price = m.avg_gas_price ∧ y.start_time < m.start_time)
          then y else m) w)

/-- Modelled from the spec: scan the history for maximal contiguous runs at
or below the average, keep those spanning at least `min_window_size`
minutes, and select the one with the lowest average price, ties broken by
the earliest start. -/
def specOptimalWindow (minW : ℚ) (hist : List Sample) : Option GasWindow :=
  let prices := hist.map Prod.snd
  let avg := prices.sum / (prices.length : ℚ)
  specSelect ((specRuns avg hist).filterMap (qualifyRun minW))

/-- `GasOptimizer.get_gas_stats` result record. -/
structure GasStats where
  average_gas_price : ℚ
  min_gas_price : ℚ
  max_gas_price : ℚ
  current_gas_price : ℚ
deriving Repr, DecidableEq

/-- `GasOptimizer.get_gas_stats`: zeros for the aggregate fields when the
history is empty; the current field always reports the ledger gas price. -/
def getGasStats (bc : Blockchain) (price_history : List Sample) : GasStats :=
  match price_history with
  | [] =>
      { average_gas_price := 0
        min_gas_price := 0
        max_gas_price := 0
        current_gas_price := bc.gas_price }
  | s :: rest =>
      let prices := (s :: rest).map Prod.snd
      { average_gas_price := prices.sum / (prices.length : ℚ)
        min_gas_price := listMin s.2 (rest.map Prod.snd)
        max_gas_price := listMax s.2 (rest.map Prod.snd)
        current_gas_price := bc.gas_price }

/-! Compound strategies (`strategy.py`). -/

/-- `operations.view.StakingPosition` as consumed by the strategies. -/
structure StakingPosition where
  address : Addr
  staked : ℚ
  rewards : ℚ
  apr : ℚ
  previous_apr : ℚ
deriving Repr, DecidableEq

/-- The shape of a `CompoundDecision.reason` string. -/
inductive DecisionReason where
  | gasAboveThreshold
  | rewardsBelowThreshold
  | buildingHistory
  | approved
deriving Repr, DecidableEq

/-- `strategy.CompoundDecision`. -/
structure CompoundDecision where
  should_compound : Bool
  reason : DecisionReason
  gas_price_threshold : Option ℚ
  min_reward_threshold : Option ℚ
deriving Repr, DecidableEq

/-- `strategy.ThresholdStrategy` configuration. -/
structure ThresholdStrategy where
  min_reward_threshold : ℚ
  max_gas_price : ℚ
deriving Repr, DecidableEq

/-- `ThresholdStrategy.should_compound`: the gas check (in gwei) comes
first, then the reward check, otherwise approval. -/
def ThresholdStrategy.shouldCompound (s : ThresholdStrategy) (position : StakingPosition)
    (bc : Blockchain) : CompoundDecision :=
  let current_gas := bc.getGasPrice
  if current_gas > s.max_gas_price then
    { should_compound := false
      reason := .gasAboveThreshold
      gas_price_threshold := some s.max_gas_price
      min_reward_threshold := some s.min_reward_threshold }
  else if position.rewards < s.min_reward_threshold then
    { should_compound := false
      reason := .rewardsBelowThreshold
      gas_price_threshold := some s.max_gas_price
      min_reward_threshold := some s.min_reward_threshold }
  else
    { should_compound := true
      reason := .approved
      gas_price_threshold := some s.max_gas_price
      min_reward_threshold := some s.min_reward_threshold }

/-- `strategy.GasOptimizedStrategy` state: configuration plus the bounded
trailing list of recent gas prices. -/
structure GasOptimizedStrategy where
  gas_percentile : ℚ
  min_reward_threshold : ℚ
  max_gas_price : ℚ
  gas_window : ℕ
  recent_gas_prices : List ℚ

/-- `GasOptimizedStrategy.should_compound`: push the current raw gas price,
drop the oldest sample past the window bound, refuse while the window is
short, then the reward check, then index the sorted window at
`int(len * gas_percentile / 100)` — an out-of-range index is the Python
`IndexError`. -/
def GasOptimizedStrategy.shouldCompound (s : GasOptimizedStrategy)
    (position : StakingPosition) (bc : Blockchain) :
    GasOptimizedStrategy × Except PyErr CompoundDecision :=
  let current_gas := bc.gas_price
  let hist1 := s.recent_gas_prices ++ [current_gas]
  let hist2 := if s.gas_window < hist1.length then hist1.tail else hist1
  let s2 := { s with recent_gas_prices := hist2 }
  if hist2.length < s.gas_window then
    (s2, .ok { should_compound := false, reason := .buildingHistory
               gas_price_threshold := none, min_reward_threshold := none })
  else if position.rewards < s.min_reward_threshold then
    (s2, .ok { should_compound := false, reason := .rewardsBelowThreshold
               gas_price_threshold := none, min_reward_threshold := some s.min_reward_threshold })
  else
    let sorted_prices := hist2.insertionSort (fun a b => a ≤ b)
    let threshold_index : ℕ :=
      (⌊(sorted_prices.length : ℚ) * s.gas_percentile / 100⌋ : ℤ).toNat
    match sorted_prices.get? threshold_index with
    | none => (s2, .error (.indexError "list index out of range"))
    | some raw_threshold =>
        let gas_threshold := min raw_threshold s.max_gas_price
        if current_gas > gas_threshold then
          (s2, .ok { should_compound := false, reason := .gasAboveThreshold
                     gas_price_threshold := some gas_threshold, min_reward_threshold := none })
        else
          (s2, .ok { should_compound := true, reason := .approved
                     gas_price_threshold := some gas_threshold
                     min_reward_threshold := some s.min_reward_threshold })

/-! Reward monitor (`monitor.py`). -/

/-- `monitor.CompoundEvent` (the nondeterministic transaction hash is not
modelled). -/
structure CompoundEvent where
  timestamp : ℚ
  rewards : ℚ
  gas_price : ℚ
  gas_used : ℚ
  address : Addr
deriving Repr, DecidableEq

/-- `monitor.RewardMonitor` state relevant to `execute_compound`. -/
structure RewardMonitor where
  monitor_address : Addr
  strategy : ThresholdStrategy
  compound_history : List CompoundEvent

/-- `RewardMonitor.execute_compound`: precondition failures return the null
sentinel, and the surrounding catch-all handler converts every exception
raised by the contract call into the null sentinel as well. -/
def RewardMonitor.executeCompound (m : RewardMonitor) (σ : Sys)
    (address : Option Addr) (min_rewards : Option ℚ) (max_gas_price : Option ℚ) :
    Option MockTx × Sys × RewardMonitor :=
  let check_address := address.getD m.monitor_address
  let rewards := σ.getRewards check_address
  let minR := min_rewards.getD m.strategy.min_reward_threshold
  if rewards < minR then (none, σ, m)
  else
    let gp := σ.bc.gas_price
    let maxG := max_gas_price.getD m.strategy.max_gas_price
    if gp > maxG then (none, σ, m)
    else
      match σ.compound check_address with
      | .error _ => (none, σ, m)
      | .ok (tx, σ2) =>
          let event : CompoundEvent :=
            { timestamp := σ2.bc.last_block_time
              rewards := rewards
              gas_price := gp
              gas_used := 100000
              address := check_address }
          (some tx, σ2, { m with compound_history := m.compound_history ++ [event] })

/-- The transaction produced by a successful `stake` call: a confirmed
transfer of the amount from the staker to the contract. -/
def stakeTx (σ : Sys) (address : Addr) (amount : ℚ) : MockTx :=
  { from_address := address
    to_address := σ.c.address
    value := amount
    gas_limit := σ.c.gas_limit
    gas_price := σ.bc.gas_price
    nonce := (σ.c.nonces address).getD 0
    status := .success
    gas_used := some (σ.c.gas_limit * 95 / 100) }

/-- The post-state of a successful `stake` call: the ledger after the
transaction is applied, with the stake and stake-block maps updated and
the per-staker nonce bumped. -/
def stakePost (σ : Sys) (address : Addr) (amount : ℚ) : Sys :=
  let tx := stakeTx σ address amount
  let bc2 := (σ.bc.mapAccount address
      (fun s => { s with balance := s.balance - (amount + tx.getGasCost) })).mapAccount
    σ.c.address (fun r => { r with balance := r.balance + amount })
  { bc := { bc2 with transactions := bc2.transactions ++ [tx] }
    c := { σ.c with
      nonces := fupd σ.c.nonces address (some ((σ.c.nonces address).getD 0 + 1))
      stakes := fupd σ.c.stakes address (some ((σ.c.stakes address).getD 0 + amount))
      stake_block := fupd σ.c.stake_block address (some σ.bc.current_block) } }

/-- The transaction produced by a successful `unstake` call: a confirmed
zero-value gas-only transfer from the staker to the contract. -/
def unstakeTx (σ : Sys) (address : Addr) : MockTx :=
  { from_address := address
    to_address := σ.c.address
    value := 0
    gas_limit := σ.c.gas_limit
    gas_price := σ.bc.gas_price
    nonce := (σ.c.nonces address).getD 0
    status := .success
    gas_used := some (σ.c.gas_limit * 95 / 100) }

/-- The post-state of a successful `unstake` of `amount` out of a recorded
stake of `s0`: the gas-only transaction is applied, the stake decremented
(entry removed at zero) and the amount credited back to the balance. -/
def unstakePost (σ : Sys) (address : Addr) (amount s0 : ℚ) : Sys :=
  let tx := unstakeTx σ address
  let bc2 := (σ.bc.mapAccount address
      (fun s => { s with balance := s.balance - (0 + tx.getGasCost) })).mapAccount
    σ.c.address (fun r => { r with balance := r.balance + 0 })
  let bc3 := { bc2 with transactions := bc2.transactions ++ [tx] }
  { bc := bc3.mapAccount address (fun q => { q with balance := q.balance + amount })
    c := { σ.c with
      nonces := fupd σ.c.nonces address (some ((σ.c.nonces address).getD 0 + 1))
      stakes := if s0 - amount = 0 then fupd σ.c.stakes address none
                else fupd σ.c.stakes address (some (s0 - amount)) } }

/-! Concrete states and traces used by the theorems below. -/

/-- A fresh simulation: ledger at time 0 with a user account `0xa` holding
10 ETH, and the contract initialised at `0x0` (which funds the contract
account with 1000 ETH). -/
def demoSys : Sys :=
  Contract.initOn ((mkBlockchain 0).createAccountD "0xa" 10) "0x0"

/-- A fresh simulation whose user account `0xa` holds only 0.5 ETH: too
little to cover a 0.5 ETH stake plus its gas cost. -/
def lowBalanceSys : Sys :=
  Contract.initOn ((mkBlockchain 0).createAccountD "0xa" (1/2)) "0x0"

/-- A fresh simulation holding only the contract account at `0x0`. -/
def bareSys : Sys :=
  Contract.initOn (mkBlockchain 0) "0x0"

/-- Stake 1 ETH from `0xa`, mine one block, compound twice in immediate
succession; record the rewards visible after the first compound and the
value carried by the second compound's transaction. -/
def compoundTwiceTrace : Except PyErr (ℚ × ℚ) := do
  let p1 ← demoSys.stake "0xa" 1
  let p3 ← (p1.2.mineBlock 24).compound "0xa"
  let p4 ← p3.2.compound "0xa"
  pure (p3.2.getRewards "0xa", p4.1.value)

/-- Stake 1 ETH from `0xa`, mine one block, then claim rewards; record the
pre-claim balance and rewards, the post-claim balance and rewards, and the
gas cost of the claim transaction. -/
def claimTrace : Except PyErr (ℚ × ℚ × ℚ × ℚ × ℚ) := do
  let p1 ← demoSys.stake "0xa" 1
  let σ2 := p1.2.mineBlock 24
  let p3 ← σ2.claimRewards "0xa"
  pure ((σ2.balanceOf "0xa").getD 0, σ2.getRewards "0xa",
        (p3.2.balanceOf "0xa").getD 0, p3.2.getRewards "0xa", p3.1.getGasCost)

/-- The contract account stakes 1 ETH to itself and unstakes it again;
record the final balance, the final stake and the summed gas cost of the
two transactions. -/
def selfRoundTrip : Except PyErr (ℚ × ℚ × ℚ) := do
  let p1 ← bareSys.stake "0x0" 1
  let p2 ← p1.2.unstake "0x0" 1
  pure ((p2.2.balanceOf "0x0").getD 0, p2.2.getStake "0x0",
        p1.1.getGasCost + p2.1.getGasCost)

/-- A state whose stakes map and rewards map carry entries for `0xg` even
though no ledger account `0xg` exists (built through `stake_tokens` and
`add_rewards`, which bypass the ledger). -/
def ghostSys : Sys :=
  ((Contract.initOn (mkBlockchain 0) "0x0").stakeTokens "0xg" 1).addRewards "0xg" 1

/-- A monitor for the ghost address with a threshold strategy. -/
def ghostMonitor : RewardMonitor :=
  { monitor_address := "0xg"
    strategy := { min_reward_threshold := 1/10, max_gas_price := 100 }
    compound_history := [] }

/-- A state with a live stake whose rewards are all base rewards: stake 1
ETH from `0xa` (recording the stake block), then add 0.5 ETH of rewards
without mining any block. -/
def baseRewardSys : Sys :=
  (demoSys.stakeD "0xa" 1).addRewards "0xa" (1/2)

/-- A state with a live stake and one mined block, so the lazily computed
rewards are positive. -/
def accruedSys : Sys :=
  (demoSys.stakeD "0xa" 1).mineBlock 24

/-- A three-sample price history: five minutes at 10 gwei followed by a
spike to 40 gwei. -/
def demoHist : List Sample :=
  [((0 : ℚ), (10 : ℚ)), (300, 10), (600, 40)]

/-- A blockchain whose gas price is 200 gwei. -/
def highGasBC : Blockchain :=
  { mkBlockchain 0 with gas_price := 200000000000 }

/-- A threshold strategy: at least 0.1 ETH rewards, at most 100 gwei gas. -/
def demoStrategy : ThresholdStrategy :=
  { min_reward_threshold := 1/10, max_gas_price := 100 }

/-- A position whose rewards exceed the demo strategy's minimum. -/
def demoPosition : StakingPosition :=
  { address := "0xa", staked := 5, rewards := 1, apr := 1/20, previous_apr := 1/20 }

/-- A gas-optimized strategy at the 100th percentile with a window of one
sample, so a single recorded price fills the window. -/
def c10strategy : GasOptimizedStrategy :=
  { gas_percentile := 100
    min_reward_threshold := 1/10
    max_gas_price := 100
    gas_window := 1
    recent_gas_prices := [] }

/-! Theorems. The rational operations are restored to their definitional
reducibility locally so that concrete states evaluate inside `decide`. -/

section ConcreteEvaluation

attribute [local semireducible] Rat.add Rat.mul Rat.inv Rat.sub Rat.ofScientific

/-- C1: the claim says a stake whose amount plus gas cost exceeds the
sender's balance is rejected before any mutation, leaving balance, staked
amount and nonce unchanged. The code has no such check: staking 0.5 ETH
from an account holding exactly 0.5 ETH (gas cost 0.000399 ETH, so the
balance is insufficient) succeeds, drives the balance to -0.000399 ETH,
records the 0.5 ETH stake and bumps the nonce. -/
theorem c1_theorem :
    ((lowBalanceSys.stake "0xa" (1/2)).map
        (fun r => (r.2.balanceOf "0xa", r.2.getStake "0xa", (r.2.c.nonces "0xa").getD 0)))
      = .ok (some (-(399/1000000 : ℚ)), (1/2 : ℚ), 1)
    ∧ (-(399/1000000 : ℚ)) < 0
    ∧ lowBalanceSys.balanceOf "0xa" = some (1/2)
    ∧ (1/2 : ℚ) < 1/2 + 399/1000000 := by
  refine ⟨by decide, by norm_num, by decide, by norm_num⟩

/-- C2 counterexample: after stake(0xa, 1) and one mined block the rewards
are positive; the first compound succeeds, yet immediately afterwards
`get_rewards` is positive again (the stake-block entry was not advanced, so
the accrual is recomputed over the same elapsed block at the enlarged
stake), and the second compound succeeds as well instead of failing with
"no rewards to compound". -/
theorem c2_counterexample :
    compoundTwiceTrace = .ok (52560001/2762553600000000, 52560001/2762553600000000)
    ∧ (0 : ℚ) < 52560001/2762553600000000 := by
  refine ⟨by decide, by norm_num⟩

/-- C3 counterexample: after stake(0xa, 1) and one mined block, claiming
rewards credits the claimer with the full reward amount (gas, still
positive, is never charged on this path), and `get_rewards` still reports
the old positive accrual afterwards instead of 0. -/
theorem c3_counterexample :
    claimTrace = .ok (8999601/1000000, 1/52560000, 11825475739/1314000000,
                      1/52560000, 399/1000000)
    ∧ (11825475739/1314000000 : ℚ) = 8999601/1000000 + 1/52560000
    ∧ (11825475739/1314000000 : ℚ) ≠ 8999601/1000000 + 1/52560000 - 399/1000000
    ∧ (0 : ℚ) < 1/52560000 := by
  refine ⟨by decide, by norm_num, by norm_num, by norm_num⟩

/-- C4 counterexample: staking from the contract's own address is a valid
stake under the claimed preconditions (amount within bounds, ample
balance), yet the balance drops only by the gas cost, not by amount plus
gas, because the value is credited straight back; moreover the ledger
account's `nonce` field stays 0 even for an ordinary user stake (only the
contract's internal per-staker nonce map is bumped). -/
theorem c4_counterexample :
    ((bareSys.stake "0x0" 1).map (fun r => (r.2.balanceOf "0x0", r.2.getStake "0x0")))
      = .ok (some (999999601/1000000 : ℚ), 1)
    ∧ (999999601/1000000 : ℚ) ≠ 1000 - (1 + 399/1000000)
    ∧ ((demoSys.stake "0xa" 1).map
        (fun r => (r.2.bc.accounts "0xa").map Account.nonce)) = .ok (some 0) := by
  refine ⟨by decide, by norm_num, by decide⟩

/-- C5 counterexample: a stake immediately followed by an unstake of the
same amount from the contract's own address returns the staked amount to
its pre-stake value, but the final balance is initial balance plus the
amount minus the gas of the two transactions — not initial balance minus
the total gas cost. -/
theorem c5_counterexample :
    selfRoundTrip = .ok (500499601/500000, 0, 798/1000000)
    ∧ (500499601/500000 : ℚ) ≠ 1000 - 798/1000000 := by
  refine ⟨by decide, by norm_num⟩

/-- C6 counterexample: for an address with a stake entry and rewards but no
ledger account, `execute_compound` passes its rewards and gas checks and
the underlying `contract.compound` raises the account-not-found KeyError —
yet `execute_compound` returns the null sentinel: the catch-all handler
converts the lower-level hard error into None instead of propagating it. -/
theorem c6_counterexample :
    (ghostMonitor.executeCompound ghostSys (some "0xg") (some (1/2))
        (some 1000000000000000000)).1 = none
    ∧ (ghostSys.compound "0xg").map (fun _ => true)
        = .error (.keyError "Account 0xg does not exist") := by
  refine ⟨by decide, by decide⟩

/-- C9 counterexample: with an empty price history, `get_gas_stats` on a
freshly constructed ledger reports average, minimum and maximum of 0, but
the current gas price field is the ledger's 20 gwei — not zero, contrary to
the claim that every reported statistic is zero. -/
theorem c9_counterexample :
    getGasStats (mkBlockchain 0) []
      = { average_gas_price := 0, min_gas_price := 0, max_gas_price := 0,
          current_gas_price := 20000000000 }
    ∧ (getGasStats (mkBlockchain 0) []).current_gas_price ≠ 0 := by
  refine ⟨by decide, by decide⟩

/-- C9 (amended): with an empty price history `get_gas_stats` reports zero
average, minimum and maximum, and reports the ledger's current gas price in
the current field. -/
theorem c9_theorem (bc : Blockchain) :
    getGasStats bc []
      = { average_gas_price := 0, min_gas_price := 0, max_gas_price := 0,
          current_gas_price := bc.gas_price } := rfl

/-- C10: the constructor accepts every gas percentile in the closed range 0
to 100, but at percentile 100 with a full window `should_compound` computes
threshold index = window length and the sorted-window access is out of
range: on a one-sample window the call raises IndexError (the window is
full: its length equals `gas_window`, and the position's rewards exceed the
minimum, so the reward check passes). -/
theorem c10_theorem :
    (c10strategy.shouldCompound demoPosition (mkBlockchain 0)).2
        = .error (.indexError "list index out of range")
    ∧ (c10strategy.shouldCompound demoPosition
        (mkBlockchain 0)).1.recent_gas_prices.length = c10strategy.gas_window := by
  refine ⟨by decide, by decide⟩

/-- C8: whenever the current gas price (in gwei, as `get_gas_price`
reports it) exceeds the strategy's maximum, `ThresholdStrategy`'s
`should_compound` refuses with the gas reason, even when the position's
rewards meet the minimum: the gas check is evaluated before the reward
check. -/
theorem c8_theorem (s : ThresholdStrategy) (position : StakingPosition) (bc : Blockchain)
    (hgas : s.max_gas_price < bc.getGasPrice)
    (hrew : s.min_reward_threshold ≤ position.rewards) :
    (s.shouldCompound position bc).should_compound = false
    ∧ (s.shouldCompound position bc).reason = .gasAboveThreshold := by
  unfold ThresholdStrategy.shouldCompound
  rw [if_pos hgas]
  exact ⟨rfl, rfl⟩

/-- C8 witness: 200 gwei exceeds the 100 gwei maximum while the rewards of
1 ETH exceed the 0.1 ETH minimum, and the decision is a gas-reasoned
refusal. -/
theorem c8_witness :
    (demoStrategy.max_gas_price < highGasBC.getGasPrice
      ∧ demoStrategy.min_reward_threshold ≤ demoPosition.rewards)
    ∧ ((demoStrategy.shouldCompound demoPosition highGasBC).should_compound = false
      ∧ (demoStrategy.shouldCompound demoPosition highGasBC).reason = .gasAboveThreshold) :=
  ⟨⟨by decide, by decide⟩,
    c8_theorem demoStrategy demoPosition highGasBC (by decide) (by decide)⟩

/-- C6 (amended): `execute_compound` returns the null sentinel exactly when
something fails: the rewards check, the gas check, or the underlying
contract compound call (every exception the latter raises — including the
account-not-found KeyError — is caught and converted to the sentinel rather
than propagated). -/
theorem c6_amended (m : RewardMonitor) (σ : Sys) (address : Option Addr)
    (min_rewards max_gas_price : Option ℚ) :
    (m.executeCompound σ address min_rewards max_gas_price).1 = none ↔
      (σ.getRewards (address.getD m.monitor_address)
          < min_rewards.getD m.strategy.min_reward_threshold
       ∨ max_gas_price.getD m.strategy.max_gas_price < σ.bc.gas_price
       ∨ ∃ e, σ.compound (address.getD m.monitor_address) = .error e) := by
  unfold RewardMonitor.executeCompound
  by_cases h1 : σ.getRewards (address.getD m.monitor_address)
      < min_rewards.getD m.strategy.min_reward_threshold
  · simp [h1]
  · rw [if_neg h1]
    by_cases h2 : max_gas_price.getD m.strategy.max_gas_price < σ.bc.gas_price
    · simp [h1, h2]
    · rw [if_neg h2]
      cases hc : σ.compound (address.getD m.monitor_address) with
      | error e => simp [h1, h2, hc]
      | ok p => simp [h1, h2, hc]

/-- C2 (amended): for an address with a positive stake and positive stored
base rewards whose stake block equals the current block (no blocks elapsed
since staking, so the rewards are exactly the stored base rewards), the
first compound folds the rewards into the stake and zeroes them, and an
immediately following second compound fails with "No rewards to compound".
When blocks have elapsed since the stake block the second call instead
succeeds, because `get_rewards` recomputes a positive accrual from the
untouched stake-block entry (see the counterexample). -/
theorem c2_amended (σ : Sys) (a : Addr) (s r : ℚ)
    (hs : σ.c.stakes a = some s) (hspos : 0 < s)
    (hr : σ.c.rewards a = some r) (hrpos : 0 < r)
    (hsb : σ.c.stake_block a = some σ.bc.current_block)
    (hacct : (σ.bc.accounts a).isSome) :
    ∃ tx σ', σ.compound a = .ok (tx, σ')
      ∧ tx.value = r
      ∧ σ'.getStake a = s + r
      ∧ σ'.getRewards a = 0
      ∧ σ'.compound a = .error (.valueError "No rewards to compound") := by
  obtain ⟨acct, hacct⟩ := Option.isSome_iff_exists.mp hacct
  have hget : σ.getRewards a = r := by
    simp [Sys.getRewards, hs, hr, hsb]
  have hz : ∀ σ' : Sys, σ'.c.stakes a = some (s + r) → σ'.getRewards a = 0 →
      σ'.compound a = .error (.valueError "No rewards to compound") := by
    intro σ' h1 h2
    unfold Sys.compound
    rw [h1]
    dsimp only
    rw [h2, if_pos le_rfl]
  refine ⟨({ from_address := a, to_address := σ.c.address, value := r, gas_limit := σ.c.gas_limit, gas_price := σ.bc.gas_price, nonce := (σ.c.nonces a).getD 0 } : MockTx).confirm, { bc := σ.bc.mapAccount a (fun x => { x with last_stake_time := some σ.bc.last_block_time }), c := { σ.c with nonces := fupd σ.c.nonces a (some ((σ.c.nonces a).getD 0 + 1)), stakes := fupd σ.c.stakes a (some (s + r)), rewards := fupd σ.c.rewards a (some 0) } }, ?_, ?_, ?_, ?_, ?_⟩
  · unfold Sys.compound Blockchain.getAccount
    rw [hs]
    dsimp only
    rw [hget, if_neg (not_le.mpr hrpos), hacct]
    rfl
  · rfl
  · simp [Sys.getStake, fupd]
  · simp [Sys.getRewards, fupd, Blockchain.mapAccount, Contract.getNextNonce, hsb]
  · apply hz
    · simp [fupd]
    · simp [Sys.getRewards, fupd, Blockchain.mapAccount, Contract.getNextNonce, hsb]

/-- C2 witness: in a state with a 1 ETH stake made at the current block and
0.5 ETH of added base rewards, the first compound folds and zeroes the
rewards and the second compound fails with "No rewards to compound". -/
theorem c2_amended_witness :
    (baseRewardSys.c.stakes "0xa" = some 1 ∧ (0:ℚ) < 1
      ∧ baseRewardSys.c.rewards "0xa" = some (1/2) ∧ (0:ℚ) < 1/2
      ∧ baseRewardSys.c.stake_block "0xa" = some baseRewardSys.bc.current_block
      ∧ (baseRewardSys.bc.accounts "0xa").isSome)
    ∧ (∃ tx σ', baseRewardSys.compound "0xa" = .ok (tx, σ')
        ∧ tx.value = 1/2
        ∧ σ'.getStake "0xa" = 1 + 1/2
        ∧ σ'.getRewards "0xa" = 0
        ∧ σ'.compound "0xa" = .error (.valueError "No rewards to compound")) :=
  ⟨⟨by decide, by decide, by decide, by decide, by decide, by decide⟩,
    c2_amended baseRewardSys "0xa" 1 (1/2) (by decide) (by decide) (by decide)
      (by decide) (by decide) (by decide)⟩

/-- C3 (amended): for an address other than the contract's own with an
existing ledger account, `claim_rewards` fails with "No rewards available
to claim" when `get_rewards` is zero (raising before any mutation);
otherwise it debits the contract account by the full reward amount,
credits the claimer by the full reward amount (no gas is charged on this
path), zeroes the stored base rewards, and afterwards `get_rewards`
reports the recomputed accrual component — zero only when no blocks have
elapsed since the stake block. -/
theorem c3_amended (σ : Sys) (a : Addr)
    (ha : a ≠ σ.c.address)
    (hacct : (σ.bc.accounts a).isSome)
    (hca : (σ.bc.accounts σ.c.address).isSome) :
    (σ.getRewards a = 0 →
      σ.claimRewards a = .error (.valueError "No rewards available to claim"))
    ∧ (σ.getRewards a ≠ 0 →
        ∃ tx σ', σ.claimRewards a = .ok (tx, σ')
          ∧ tx.value = σ.getRewards a
          ∧ σ'.balanceOf σ.c.address
              = (σ.balanceOf σ.c.address).map (fun b => b - σ.getRewards a)
          ∧ σ'.balanceOf a = (σ.balanceOf a).map (fun b => b + σ.getRewards a)
          ∧ σ'.c.rewards a = some 0
          ∧ σ'.getRewards a = σ.accrualComponent a) := by
  obtain ⟨acct, hacct⟩ := Option.isSome_iff_exists.mp hacct
  obtain ⟨cacct, hca⟩ := Option.isSome_iff_exists.mp hca
  have hne : σ.c.address ≠ a := fun h => ha h.symm
  constructor
  · intro h0
    unfold Sys.claimRewards
    dsimp only
    rw [if_pos h0]
  · intro h0
    refine ⟨({ from_address := σ.c.address, to_address := a, value := σ.getRewards a, gas_limit := σ.c.gas_limit, gas_price := σ.bc.gas_price, nonce := (σ.c.nonces a).getD 0 } : MockTx).confirm, { bc := (σ.bc.mapAccount σ.c.address (fun x => { x with balance := x.balance - σ.getRewards a })).mapAccount a (fun x => { x with balance := x.balance + σ.getRewards a }), c := { σ.c with nonces := fupd σ.c.nonces a (some ((σ.c.nonces a).getD 0 + 1)), rewards := fupd σ.c.rewards a (some 0) } }, ?_, ?_, ?_, ?_, ?_, ?_⟩
    · unfold Sys.claimRewards Blockchain.getAccount
      dsimp only
      rw [if_neg h0, hacct, hca]
      rfl
    · rfl
    · simp [Sys.balanceOf, Blockchain.mapAccount, hca, hne]
    · simp [Sys.balanceOf, Blockchain.mapAccount, hacct, ha]
    · simp [fupd]
    · cases hstakes : σ.c.stakes a with
      | none => simp [Sys.getRewards, Sys.accrualComponent, fupd, hstakes]
      | some st =>
          simp [Sys.getRewards, Sys.accrualComponent, fupd, hstakes, Blockchain.mapAccount]

/-- C3 witness: after staking 1 ETH and mining a block, rewards are
nonzero; claiming transfers the full amount from the contract account to
the claimer, zeroes the base rewards, and leaves the accrual component
visible. -/
theorem c3_amended_witness :
    ("0xa" ≠ accruedSys.c.address
      ∧ (accruedSys.bc.accounts "0xa").isSome
      ∧ (accruedSys.bc.accounts accruedSys.c.address).isSome)
    ∧ ((accruedSys.getRewards "0xa" = 0 →
          accruedSys.claimRewards "0xa"
            = .error (.valueError "No rewards available to claim"))
      ∧ (accruedSys.getRewards "0xa" ≠ 0 →
          ∃ tx σ', accruedSys.claimRewards "0xa" = .ok (tx, σ')
            ∧ tx.value = accruedSys.getRewards "0xa"
            ∧ σ'.balanceOf accruedSys.c.address
                = (accruedSys.balanceOf accruedSys.c.address).map
                    (fun b => b - accruedSys.getRewards "0xa")
            ∧ σ'.balanceOf "0xa"
                = (accruedSys.balanceOf "0xa").map
                    (fun b => b + accruedSys.getRewards "0xa")
            ∧ σ'.c.rewards "0xa" = some 0
            ∧ σ'.getRewards "0xa" = accruedSys.accrualComponent "0xa")) :=
  ⟨⟨by decide, by decide, by decide⟩,
    c3_amended accruedSys "0xa" (by decide) (by decide) (by decide)⟩

/-- C4 (amended): for every valid stake from an address other than the
contract's own address, with an existing account and sufficient balance:
the staked amount recorded for the address grows by exactly the amount,
the balance shrinks by exactly amount plus the transaction's gas cost, and
the contract's per-staker nonce counter grows by exactly 1 (the ledger
account's `nonce` field is not what this path increments). -/
theorem stake_ok (σ : Sys) (a : Addr) (x : ℚ) (acct : Account)
    (hmin : σ.c.min_stake ≤ x) (hmax : x ≤ σ.c.max_stake)
    (hacct : σ.bc.accounts a = some acct)
    (hca : (σ.bc.accounts σ.c.address).isSome) :
    σ.stake a x = .ok (stakeTx σ a x, stakePost σ a x) := by
  obtain ⟨cacct, hca⟩ := Option.isSome_iff_exists.mp hca
  unfold Sys.stake Blockchain.getAccount Blockchain.applyTransaction
  rw [if_neg (not_lt.mpr hmin), if_neg (not_lt.mpr hmax)]
  simp only [MockTx.confirm, MockTx.confirmWith, reduceIte]
  rw [hacct]
  dsimp only
  rw [hca]
  rw [if_pos (by simp)]
  rfl

theorem unstake_ok (σ : Sys) (a : Addr) (x s0 : ℚ) (acct : Account)
    (hs : σ.c.stakes a = some s0) (hx : x ≤ s0)
    (hacct : σ.bc.accounts a = some acct)
    (hca : (σ.bc.accounts σ.c.address).isSome) :
    σ.unstake a x = .ok (unstakeTx σ a, unstakePost σ a x s0) := by
  obtain ⟨cacct, hca⟩ := Option.isSome_iff_exists.mp hca
  unfold Sys.unstake Blockchain.getAccount Blockchain.applyTransaction
  rw [hs]
  dsimp only
  rw [if_neg (not_lt.mpr hx)]
  simp only [MockTx.confirm, MockTx.confirmWith, reduceIte]
  rw [hacct]
  dsimp only
  rw [hca]
  rw [if_pos (by simp)]
  rfl

theorem c4_theorem (σ : Sys) (a : Addr) (x : ℚ) (acct : Account)
    (ha : a ≠ σ.c.address)
    (hmin : σ.c.min_stake ≤ x) (hmax : x ≤ σ.c.max_stake)
    (hacct : σ.bc.accounts a = some acct)
    (hca : (σ.bc.accounts σ.c.address).isSome)
    (hbal : x + ((σ.c.gas_limit * 95 / 100 : ℕ) : ℚ) * σ.bc.gas_price
        / 1000000000000000000 ≤ acct.balance) :
    ∃ tx σ', σ.stake a x = .ok (tx, σ')
      ∧ tx.getGasCost = ((σ.c.gas_limit * 95 / 100 : ℕ) : ℚ) * σ.bc.gas_price
          / 1000000000000000000
      ∧ σ'.getStake a = σ.getStake a + x
      ∧ σ'.balanceOf a = some (acct.balance - (x + tx.getGasCost))
      ∧ (σ'.c.nonces a).getD 0 = (σ.c.nonces a).getD 0 + 1 := by
  have hne : σ.c.address ≠ a := fun h => ha h.symm
  refine ⟨stakeTx σ a x, stakePost σ a x, stake_ok σ a x acct hmin hmax hacct hca,
    ?_, ?_, ?_, ?_⟩
  · simp [stakeTx, MockTx.getGasCost]
  · simp [stakePost, Sys.getStake, fupd]
  · simp [stakePost, Sys.balanceOf, Blockchain.mapAccount, hacct, ha, hne]
  · simp [stakePost, fupd]

/-- C4 witness: staking 1 ETH from the funded user account increases its
recorded stake by 1, decreases its balance by 1 plus the transaction's gas
cost, and bumps the contract's per-staker nonce from 0 to 1. -/
theorem c4_witness :
    (("0xa" : Addr) ≠ demoSys.c.address
      ∧ demoSys.c.min_stake ≤ 1 ∧ (1:ℚ) ≤ demoSys.c.max_stake
      ∧ demoSys.bc.accounts "0xa" = some (mkAccount 10)
      ∧ (demoSys.bc.accounts demoSys.c.address).isSome
      ∧ 1 + ((demoSys.c.gas_limit * 95 / 100 : ℕ) : ℚ) * demoSys.bc.gas_price
          / 1000000000000000000 ≤ (mkAccount 10).balance)
    ∧ (∃ tx σ', demoSys.stake "0xa" 1 = .ok (tx, σ')
        ∧ tx.getGasCost = ((demoSys.c.gas_limit * 95 / 100 : ℕ) : ℚ)
            * demoSys.bc.gas_price / 1000000000000000000
        ∧ σ'.getStake "0xa" = demoSys.getStake "0xa" + 1
        ∧ σ'.balanceOf "0xa" = some ((mkAccount 10).balance - (1 + tx.getGasCost))
        ∧ (σ'.c.nonces "0xa").getD 0 = (demoSys.c.nonces "0xa").getD 0 + 1) :=
  ⟨⟨by decide, by decide, by decide, by decide, by decide, by decide⟩,
    c4_theorem demoSys "0xa" 1 (mkAccount 10) (by decide) (by decide) (by decide)
      (by decide) (by decide) (by decide)⟩

/-- C5 (amended): for every address other than the contract's own with an
existing account, sufficient balance, a valid amount and a nonnegative
pre-stake, staking and then immediately unstaking the same amount returns
the recorded stake to its pre-stake value and leaves the balance equal to
the initial balance minus the total gas cost of the two transactions,
exactly. -/
theorem c5_theorem (σ : Sys) (a : Addr) (x : ℚ) (acct : Account)
    (ha : a ≠ σ.c.address)
    (hmin : σ.c.min_stake ≤ x) (hmax : x ≤ σ.c.max_stake)
    (hacct : σ.bc.accounts a = some acct)
    (hca : (σ.bc.accounts σ.c.address).isSome)
    (hpre : 0 ≤ σ.getStake a)
    (hbal : x + ((σ.c.gas_limit * 95 / 100 : ℕ) : ℚ) * σ.bc.gas_price
        / 1000000000000000000 ≤ acct.balance) :
    ∃ tx1 σ1 tx2 σ2, σ.stake a x = .ok (tx1, σ1)
      ∧ σ1.unstake a x = .ok (tx2, σ2)
      ∧ σ2.getStake a = σ.getStake a
      ∧ σ2.balanceOf a = some (acct.balance - (tx1.getGasCost + tx2.getGasCost)) := by
  have hne : σ.c.address ≠ a := fun h => ha h.symm
  have hxle : x ≤ (σ.c.stakes a).getD 0 + x := le_add_of_nonneg_left hpre
  have hs1 : (stakePost σ a x).c.stakes a = some ((σ.c.stakes a).getD 0 + x) := by
    simp [stakePost, fupd]
  have hacct1 : ∃ acct1, (stakePost σ a x).bc.accounts a = some acct1 := by
    simp [stakePost, Blockchain.mapAccount, hacct, ha, hne]
  obtain ⟨acct1, hacct1⟩ := hacct1
  have hca1 : ((stakePost σ a x).bc.accounts (stakePost σ a x).c.address).isSome := by
    obtain ⟨cacct, hcaeq⟩ := Option.isSome_iff_exists.mp hca
    simp [stakePost, Blockchain.mapAccount, hcaeq, hne]
  refine ⟨stakeTx σ a x, stakePost σ a x, unstakeTx (stakePost σ a x) a,
    unstakePost (stakePost σ a x) a x ((σ.c.stakes a).getD 0 + x),
    stake_ok σ a x acct hmin hmax hacct hca,
    unstake_ok (stakePost σ a x) a x ((σ.c.stakes a).getD 0 + x) acct1 hs1 hxle hacct1 hca1,
    ?_, ?_⟩
  · by_cases hz : (σ.c.stakes a).getD 0 = 0
    · simp [unstakePost, stakePost, Sys.getStake, fupd, hz]
    · have hzz : ¬((σ.c.stakes a).getD 0 + x - x = 0) := by
        intro h
        exact hz (by linarith)
      simp [unstakePost, stakePost, Sys.getStake, fupd, hzz, hz]
  · have hb1 : acct1.balance = acct.balance - (x + (stakeTx σ a x).getGasCost) := by
      have := hacct1
      simp [stakePost, Blockchain.mapAccount, hacct, ha, hne] at this
      rw [← this]
    simp [unstakePost, Sys.balanceOf, Blockchain.mapAccount, fupd, hacct1, ha, hne, hb1,
      stakePost, stakeTx, unstakeTx, MockTx.getGasCost]
    ring_nf
    exact ⟨acct, hacct, by ring⟩

/-- C5 witness: staking and unstaking 1 ETH from the funded user account
returns its stake to 0 and its balance to 10 minus the two gas costs. -/
theorem c5_witness :
    (("0xa" : Addr) ≠ demoSys.c.address
      ∧ demoSys.c.min_stake ≤ 1 ∧ (1:ℚ) ≤ demoSys.c.max_stake
      ∧ demoSys.bc.accounts "0xa" = some (mkAccount 10)
      ∧ (demoSys.bc.accounts demoSys.c.address).isSome
      ∧ 0 ≤ demoSys.getStake "0xa"
      ∧ 1 + ((demoSys.c.gas_limit * 95 / 100 : ℕ) : ℚ) * demoSys.bc.gas_price
          / 1000000000000000000 ≤ (mkAccount 10).balance)
    ∧ (∃ tx1 σ1 tx2 σ2, demoSys.stake "0xa" 1 = .ok (tx1, σ1)
        ∧ σ1.unstake "0xa" 1 = .ok (tx2, σ2)
        ∧ σ2.getStake "0xa" = demoSys.getStake "0xa"
        ∧ σ2.balanceOf "0xa"
            = some ((mkAccount 10).balance - (tx1.getGasCost + tx2.getGasCost))) :=
  ⟨⟨by decide, by decide, by decide, by decide, by decide, by decide, by decide⟩,
    c5_theorem demoSys "0xa" 1 (mkAccount 10) (by decide) (by decide) (by decide)
      (by decide) (by decide) (by decide) (by decide)⟩

theorem collectWindows_aux (minW avg : ℚ) (l : List Sample) :
    ∀ run, collectWindows minW avg run l =
      (qualifyRun minW (run ++ l.takeWhile (fun t => t.2 ≤ avg))).toList ++
        collectWindows minW avg [] (l.dropWhile (fun t => t.2 ≤ avg)) := by
  induction l with
  | nil =>
      intro run
      simp [collectWindows, qualifyRun]
  | cons s t ih =>
      intro run
      by_cases h : s.2 ≤ avg
      · rw [collectWindows, if_pos h, ih (run ++ [s])]
        rw [List.takeWhile_cons, List.dropWhile_cons]
        simp [h, List.append_assoc]
      · rw [collectWindows, if_neg h]
        rw [List.takeWhile_cons, List.dropWhile_cons]
        simp only [h, decide_False, Bool.false_eq_true, if_false, List.append_nil]
        rw [collectWindows, if_neg h]
        simp [qualifyRun]

theorem collectWindows_eq_specRuns (minW avg : ℚ) (n : ℕ) :
    ∀ l : List Sample, l.length ≤ n →
      collectWindows minW avg [] l = (specRuns avg l).filterMap (qualifyRun minW) := by
  induction n with
  | zero =>
      intro l hl
      have : l = [] := List.length_eq_zero.mp (Nat.le_zero.mp hl)
      subst this
      simp [collectWindows, specRuns, qualifyRun]
  | succ n ih =>
      intro l hl
      cases l with
      | nil => simp [collectWindows, specRuns, qualifyRun]
      | cons s t =>
          have htl : t.length ≤ n := (by simpa using hl)
          by_cases h : s.2 ≤ avg
          · rw [collectWindows, if_pos h, List.nil_append, collectWindows_aux]
            rw [specRuns, if_pos h, List.filterMap_cons]
            have ht : (t.dropWhile (fun t => t.2 ≤ avg)).length ≤ n :=
              le_trans (List.dropWhile_sublist _).length_le htl
            rw [ih _ ht]
            cases hq : qualifyRun minW (s :: t.takeWhile (fun t => t.2 ≤ avg)) with
            | none => simp [List.singleton_append, hq]
            | some w => simp [List.singleton_append, hq]
          · rw [collectWindows, if_neg h, specRuns, if_neg h]
            simp only [qualifyRun, Option.toList_none, List.nil_append]
            exact ih t htl

theorem qualifyRun_start (minW : ℚ) (r : List Sample) (w : GasWindow)
    (h : qualifyRun minW r = some w) : ∃ x ∈ r, w.start_time = x.1 := by
  cases r with
  | nil => simp [qualifyRun] at h
  | cons s rest =>
      refine ⟨s, List.mem_cons_self s rest, ?_⟩
      unfold qualifyRun at h
      dsimp only at h
      split at h
      · cases h
        rfl
      · cases h

theorem qualifyRun_cons_start (minW : ℚ) (s : Sample) (rest : List Sample) (w : GasWindow)
    (h : qualifyRun minW (s :: rest) = some w) : w.start_time = s.1 := by
  unfold qualifyRun at h
  dsimp only at h
  split at h
  · cases h
    rfl
  · cases h

theorem specRuns_sample_mem (avg : ℚ) (n : ℕ) :
    ∀ l : List Sample, l.length ≤ n → ∀ r ∈ specRuns avg l, ∀ x ∈ r, x ∈ l := by
  induction n with
  | zero =>
      intro l hl
      have : l = [] := List.length_eq_zero.mp (Nat.le_zero.mp hl)
      subst this
      simp [specRuns]
  | succ n ih =>
      intro l hl
      cases l with
      | nil => simp [specRuns]
      | cons s t =>
          intro r hr x hx
          by_cases h : s.2 ≤ avg
          · rw [specRuns, if_pos h] at hr
            rcases List.mem_cons.mp hr with h1 | h1
            · subst h1
              rcases List.mem_cons.mp hx with h2 | h2
              · rw [h2]
                exact List.mem_cons_self s t
              · exact List.mem_cons_of_mem s ((List.takeWhile_sublist _).subset h2)
            · have ht : (t.dropWhile (fun t => t.2 ≤ avg)).length ≤ n :=
                le_trans (List.dropWhile_sublist _).length_le
                  ((by simpa using hl))
              have := ih _ ht r h1 x hx
              exact List.mem_cons_of_mem s ((List.dropWhile_sublist _).subset this)
          · rw [specRuns, if_neg h] at hr
            exact List.mem_cons_of_mem s
              (ih t ((by simpa using hl)) r hr x hx)

theorem specWindows_start_mem (minW avg : ℚ) (n : ℕ) (l : List Sample)
    (hl : l.length ≤ n) (w : GasWindow)
    (hw : w ∈ (specRuns avg l).filterMap (qualifyRun minW)) :
    ∃ x ∈ l, w.start_time = x.1 := by
  obtain ⟨r, hr, hq⟩ := List.mem_filterMap.mp hw
  obtain ⟨x, hx, hxe⟩ := qualifyRun_start minW r w hq
  exact ⟨x, specRuns_sample_mem avg n l hl r hr x hx, hxe⟩

theorem specWindows_starts_sorted (minW avg : ℚ) (n : ℕ) :
    ∀ l : List Sample, l.length ≤ n →
      (l.map Prod.fst).Pairwise (fun a b => a < b) →
      (((specRuns avg l).filterMap (qualifyRun minW)).map
          GasWindow.start_time).Pairwise (fun a b => a < b) := by
  induction n with
  | zero =>
      intro l hl _
      have : l = [] := List.length_eq_zero.mp (Nat.le_zero.mp hl)
      subst this
      simp [specRuns]
  | succ n ih =>
      intro l hl hp
      cases l with
      | nil => simp [specRuns]
      | cons s t =>
          have htl : t.length ≤ n := (by simpa using hl)
          rw [List.map_cons] at hp
          have hp' := List.pairwise_cons.mp hp
          have ht : (t.dropWhile (fun t => t.2 ≤ avg)).length ≤ n :=
            le_trans (List.dropWhile_sublist _).length_le htl
          have hpd : ((t.dropWhile (fun t => t.2 ≤ avg)).map Prod.fst).Pairwise
              (fun a b => a < b) :=
            List.Pairwise.sublist ((List.dropWhile_sublist _).map Prod.fst) hp'.2
          by_cases h : s.2 ≤ avg
          · rw [specRuns, if_pos h, List.filterMap_cons]
            cases hq : qualifyRun minW (s :: t.takeWhile (fun t => t.2 ≤ avg)) with
            | none => exact ih _ ht hpd
            | some w =>
                rw [List.map_cons, List.pairwise_cons]
                refine ⟨?_, ih _ ht hpd⟩
                intro b hb
                obtain ⟨w', hw', hbe⟩ := List.mem_map.mp hb
                obtain ⟨y, hy, hye⟩ :=
                  specWindows_start_mem minW avg n _ ht w' hw'
                have hws : w.start_time = s.1 := qualifyRun_cons_start minW s _ w hq
                have hyt : y ∈ t := (List.dropWhile_sublist _).subset hy
                rw [← hbe, hye, hws]
                exact hp'.1 y.1 (List.mem_map_of_mem Prod.fst hyt)
          · rw [specRuns, if_neg h]
            exact ih t htl hp'.2

theorem foldl_minBy_eq_lex (t : List GasWindow) :
    ∀ m : GasWindow, (∀ y ∈ t, m.start_time < y.start_time) →
      (t.map GasWindow.start_time).Pairwise (fun a b => a < b) →
      t.foldl (fun m y => if y.avg_gas_price < m.avg_gas_price then y else m) m =
        t.foldl (fun m y =>
          if y.avg_gas_price < m.avg_gas_price ∨
             (y.avg_gas_price = m.avg_gas_price ∧ y.start_time < m.start_time)
          then y else m) m := by
  induction t with
  | nil =>
      intro m _ _
      rfl
  | cons y t ih =>
      intro m hm hp
      rw [List.map_cons] at hp
      have hp' := List.pairwise_cons.mp hp
      have hmy : m.start_time < y.start_time := hm y (List.mem_cons_self y t)
      have hstep : (if y.avg_gas_price < m.avg_gas_price then y else m) =
          (if y.avg_gas_price < m.avg_gas_price ∨
              (y.avg_gas_price = m.avg_gas_price ∧ y.start_time < m.start_time)
           then y else m) := by
        by_cases hc : y.avg_gas_price < m.avg_gas_price
        · rw [if_pos hc, if_pos (Or.inl hc)]
        · rw [if_neg hc, if_neg]
          rintro (hc1 | ⟨hc2, hc3⟩)
          · exact hc hc1
          · exact absurd hc3 (not_lt.mpr (le_of_lt hmy))
      rw [List.foldl_cons, List.foldl_cons, ← hstep]
      apply ih
      · intro z hz
        by_cases hc : y.avg_gas_price < m.avg_gas_price
        · rw [if_pos hc]
          exact hp'.1 z.start_time (List.mem_map_of_mem _ hz)
        · rw [if_neg hc]
          exact hm z (List.mem_cons_of_mem y hz)
      · exact hp'.2

theorem pyMinBy_eq_specSelect (ws : List GasWindow)
    (h : (ws.map GasWindow.start_time).Pairwise (fun a b => a < b)) :
    pyMinBy (fun w => w.avg_gas_price) ws = specSelect ws := by
  cases ws with
  | nil => rfl
  | cons w t =>
      rw [List.map_cons] at h
      have h' := List.pairwise_cons.mp h
      simp only [pyMinBy, specSelect]
      rw [foldl_minBy_eq_lex t w
        (fun y hy => h'.1 y.start_time (List.mem_map_of_mem _ hy)) h'.2]

/-- C7: on a price history of at least two time-ordered samples,
`_find_optimal_window` computes exactly the window the spec describes:
among the maximal contiguous runs of samples at or below the window
average, keep those spanning at least `min_window_size` minutes, and pick
the one with the lowest average price, ties broken by the earliest start
time. -/
theorem c7_theorem (minW : ℚ) (hist : List Sample)
    (hlen : 2 ≤ hist.length)
    (htimes : (hist.map Prod.fst).Pairwise (fun a b => a < b)) :
    findOptimalWindow minW hist = specOptimalWindow minW hist := by
  unfold findOptimalWindow specOptimalWindow
  rw [if_neg (not_lt.mpr hlen)]
  dsimp only
  rw [collectWindows_eq_specRuns minW _ hist.length hist le_rfl]
  exact pyMinBy_eq_specSelect _
    (specWindows_starts_sorted minW _ hist.length hist le_rfl htimes)

/-- C7 witness: a three-sample history whose first five minutes sit below
the average; both the implementation and the spec description select that
run as the optimal window. -/
theorem c7_witness :
    (2 ≤ demoHist.length
      ∧ (demoHist.map Prod.fst).Pairwise (fun a b => a < b))
    ∧ findOptimalWindow 5 demoHist = specOptimalWindow 5 demoHist :=
  ⟨⟨by decide, by decide⟩, c7_theorem 5 demoHist (by decide) (by decide)⟩

end ConcreteEvaluation

end StakingSim
